import Mathlib

/-!
Verification of the Stint Deriver of the BoxBoxBox repository.

The Lean definitions below are a shallow embedding of the stint / pit-stop /
fastest-lap derivation found in `src/app.py` (lines 47–115) and
`src/pit_strategy.py` (lines 53–85, 133).  Lap tables are lists of records;
pandas missing values (NaN / NaT) are `Option.none`; timestamps and lap times
are rationals.  Pandas comparison semantics are modelled explicitly: a missing
value compares unequal to everything, including itself, and a missing (NaN)
float is truthy in Python while `0.0` and `None` are falsy.
-/

namespace BoxBoxBox

/-- One row of the lap table (`session.laps`): `Driver` (= `Abbreviation`),
`LapNumber`, `Compound` (`none` = NaN), `LapTime` (`none` = NaT),
`PitInTime`, `PitOutTime` (`none` = NaT), all as read from the source. -/
structure Lap where
  driver : String
  lapNumber : Nat
  compound : Option String
  lapTime : Option ℚ
  pitInTime : Option ℚ
  pitOutTime : Option ℚ
  deriving DecidableEq, Repr

/-- Pandas `!=` between two possibly-missing compounds:
NaN compares unequal to everything, including itself
(`laps['Compound'] != laps.groupby('Abbreviation')['Compound'].shift()`). -/
def pdNe (a b : Option String) : Bool :=
  a.isNone || b.isNone || decide (a ≠ b)

/-- Per-driver scan state: for each driver already seen, the compound of that
driver's most recent lap and the running cumulative sum of change flags. -/
abbrev StState := List (String × (Option String × Nat))

/-- Lookup of a driver's entry in the scan state. -/
def stGet : StState → String → Option (Option String × Nat)
  | [], _ => none
  | (k, v) :: rest, d => if k = d then some v else stGet rest d

/-- Record a driver's new entry in the scan state (prepending shadows). -/
def stPut (st : StState) (d : String) (v : Option String × Nat) : StState :=
  (d, v) :: st

/-- The change flag of one row given its shifted predecessor compound:
`none` means the shift produced NaN (first lap of the driver), which compares
unequal, so the flag is set. -/
def changeFlag (comp : Option String) (prev : Option (Option String)) : Bool :=
  match prev with
  | none => true
  | some pc => pdNe comp pc

/-- The cumulative-sum value of one row: previous count plus the 0/1 change
flag (`.astype(int)` then `cumsum`). -/
def scanIdx (prev : Option (Option String)) (c : Nat) (comp : Option String) :
    Nat :=
  c + (if changeFlag comp prev then 1 else 0)

/-- The same, reading predecessor and count out of a state entry. -/
def stintIdx (prev : Option (Option String × Nat)) (comp : Option String) :
    Nat :=
  scanIdx (prev.map Prod.fst) ((prev.map Prod.snd).getD 0) comp

/-- Row-order embedding of lines 91–92 of `src/app.py` (= lines 55–56 of
`src/pit_strategy.py`):
`laps['CompoundChange'] = (laps['Compound'] != laps.groupby('Abbreviation')['Compound'].shift()).astype(int)`
`laps['Stint'] = laps.groupby('Abbreviation')['CompoundChange'].cumsum()`.
Each lap is paired with its `Stint` value; the shift and the cumulative sum
act within each driver's subsequence, which is what the threaded state does. -/
def assignStints : StState → List Lap → List (Lap × Nat)
  | _, [] => []
  | st, l :: rest =>
    (l, stintIdx (stGet st l.driver) l.compound) ::
      assignStints
        (stPut st l.driver (l.compound, stintIdx (stGet st l.driver) l.compound))
        rest

/-- The same scan restricted to a single driver's subsequence: `prev` is the
shifted compound (`none` = no predecessor, i.e. shift gave NaN) and `c` the
cumulative change count so far. -/
def scanStints : Option (Option String) → Nat → List Lap → List (Lap × Nat)
  | _, _, [] => []
  | prev, c, l :: rest =>
    (l, scanIdx prev c l.compound) ::
      scanStints (some l.compound) (scanIdx prev c l.compound) rest

/-- Line 93 of `src/app.py`: `laps = laps.dropna(subset=['LapTime'])`,
applied after the stint assignment. -/
def timedOf (laps : List Lap) : List (Lap × Nat) :=
  (assignStints [] laps).filter (fun p => p.1.lapTime.isSome)

/-- The valid-timed laps themselves (the rows of the post-`dropna` table). -/
def timedLaps (laps : List Lap) : List Lap :=
  (timedOf laps).map (fun p => p.1)

/-- A driver's subsequence of the stint-annotated lap table. -/
def driverSeq (laps : List Lap) (d : String) : List (Lap × Nat) :=
  (assignStints [] laps).filter (fun p => decide (p.1.driver = d))

/-- `foldl min` with an initial accumulator. -/
def foldMin {α : Type} [LinearOrder α] (a : α) (l : List α) : α :=
  l.foldl min a

/-- `foldl max` with an initial accumulator. -/
def foldMax {α : Type} [LinearOrder α] (a : α) (l : List α) : α :=
  l.foldl max a

/-- Pandas `agg('min')` over a column given as a list (0 on an empty list,
which never arises: groups are non-empty). -/
def natMinL : List Nat → Nat
  | [] => 0
  | x :: xs => foldMin x xs

/-- Pandas `agg('max')` over a column given as a list. -/
def natMaxL : List Nat → Nat
  | [] => 0
  | x :: xs => foldMax x xs

/-- One row of the derived stint table. -/
structure StintRec where
  driver : String
  stint : Nat
  compound : String
  startLap : Nat
  endLap : Nat
  deriving DecidableEq, Repr

/-- The groupby key of an annotated lap; `none` when the compound is NaN,
because pandas `groupby` drops rows with a missing key component. -/
def stintKey (p : Lap × Nat) : Option (String × Nat × String) :=
  p.1.compound.map (fun c => (p.1.driver, p.2, c))

/-- The rows of the annotated table belonging to a groupby key. -/
def stintGroup (tl : List (Lap × Nat)) (d : String) (s : Nat) (c : String) :
    List (Lap × Nat) :=
  tl.filter (fun p => decide (p.1.driver = d ∧ p.2 = s ∧ p.1.compound = some c))

/-- The aggregated stint row for one groupby key:
`StartLap=('LapNumber','min'), EndLap=('LapNumber','max')`. -/
def buildStint (tl : List (Lap × Nat)) (k : String × Nat × String) : StintRec :=
  let g := stintGroup tl k.1 k.2.1 k.2.2
  { driver := k.1, stint := k.2.1, compound := k.2.2,
    startLap := natMinL (g.map (fun p => p.1.lapNumber)),
    endLap := natMaxL (g.map (fun p => p.1.lapNumber)) }

/-- `groupby(['Abbreviation','Stint','Compound']).agg(...)` over an annotated
lap table: one aggregated row per key occurring in the table. -/
def stintsFrom (tl : List (Lap × Nat)) : List StintRec :=
  ((tl.filterMap stintKey).dedup).map (buildStint tl)

/-- Lines 89–98 of `src/app.py`: stint assignment, `dropna` on `LapTime`,
then the groupby aggregation. -/
def stintsOf (laps : List Lap) : List StintRec :=
  stintsFrom (timedOf laps)

/-- Lines 53–61 of `src/pit_strategy.py`: the same aggregation but with no
`dropna` — boundaries are taken over all laps, timed or not. -/
def stintsPS (laps : List Lap) : List StintRec :=
  stintsFrom (assignStints [] laps)

/-- Line 103 of `src/app.py` (= line 64 of `src/pit_strategy.py`) for one row:
`(PitOutTime - PitInTime).dt.total_seconds()`; `none` models the NaN produced
when `PitInTime` is NaT. -/
def pitDuration (l : Lap) : Option ℚ :=
  match l.pitOutTime, l.pitInTime with
  | some o, some i => some (o - i)
  | _, _ => none

/-- Line 101 of `src/app.py`: `pit_stops = laps.loc[laps['PitOutTime'].notnull()]`,
taken from the post-`dropna` lap table. -/
def pitRows (laps : List Lap) : List Lap :=
  (timedLaps laps).filter (fun l => l.pitOutTime.isSome)

/-- Lines 111–113 of `src/app.py`:
`pit_lookup = pit_stops.set_index(['Driver','LapNumber'])['PitDuration'].to_dict()`.
`to_dict` keeps the last row for a duplicated key, hence the reverse search.
The outer `Option` is dict-key absence; the inner one is a NaN duration. -/
def pit_lookup (laps : List Lap) (abbr : String) (lap : Nat) :
    Option (Option ℚ) :=
  ((pitRows laps).reverse.find?
    (fun l => decide (l.driver = abbr ∧ l.lapNumber = lap))).map pitDuration

/-- Python truthiness of the value found in the lookup dict: `None` is handled
separately; `0.0` is falsy; NaN and every non-zero float are truthy. -/
def truthyDur : Option ℚ → Bool
  | none => true
  | some q => decide (q ≠ 0)

/-- Python `f"{q:.2f}"` on a (model) duration value. -/
def fmt2 (q : ℚ) : String :=
  let c : Int := round (q * 100)
  let a := c.natAbs
  let s := toString (a / 100) ++ "." ++
    (if a % 100 < 10 then "0" else "") ++ toString (a % 100)
  if c < 0 then "-" ++ s else s

/-- Python `f"{duration:.2f}s"`; formatting the NaN float yields `"nans"`. -/
def fmtDur : Option ℚ → String
  | none => "nans"
  | some q => fmt2 q ++ "s"

/-- Lines 47–50 of `src/app.py` (= lines 80–83 of `src/pit_strategy.py`):
`duration = lookup.get(key); return f"{duration:.2f}s" if duration else None`. -/
def get_pit_info_from_lookup (lookup : String → Nat → Option (Option ℚ))
    (abbr : String) (lap : Nat) : Option String :=
  match lookup abbr lap with
  | none => none
  | some d => if truthyDur d then some (fmtDur d) else none

/-- Line 85 of `src/pit_strategy.py` (= line 178 of `src/app.py`): the pit
stop reported for a stint is the lookup consulted at `(driver, EndLap)`. -/
def stintPitStop (laps : List Lap) (st : StintRec) : Option String :=
  get_pit_info_from_lookup (pit_lookup laps) st.driver st.endLap

/-- `laps['LapTime'].min()` over the post-`dropna` table: `none` when the
table is empty (pandas NaN), otherwise the minimum lap time. -/
def minTime (l : List Lap) : Option ℚ :=
  match l.filterMap (fun x => x.lapTime) with
  | [] => none
  | t :: ts => some (foldMin t ts)

/-- Pandas `==` between a lap time and the column minimum: a missing value on
either side compares `False`. -/
def pdEqQ : Option ℚ → Option ℚ → Bool
  | some x, some y => decide (x = y)
  | _, _ => false

/-- Line 115 of `src/app.py`:
`fastest = laps.loc[laps['LapTime'] == laps['LapTime'].min()]`. -/
def fastestOf (laps : List Lap) : List Lap :=
  (timedLaps laps).filter (fun l => pdEqQ l.lapTime (minTime (timedLaps laps)))

/-- Modelled from the spec: the inclusive lap-number-range filter
`[lo, hi]` of the Deriver's filter step ("lap-number range — inclusive
[lo, hi]"); the lap-range slider is described in the spec but absent from
the source under `src/`. -/
def filterLapRange (lo hi : Nat) (laps : List Lap) : List Lap :=
  laps.filter (fun l => decide (lo ≤ l.lapNumber ∧ l.lapNumber ≤ hi))

/-- The spec's input contract for the lap table: rows of one driver appear in
strictly increasing lap-number order ("Input: ordered-by-driver, then-by-lap
sequence of LapRecord", "one record per driver per lap"). -/
abbrev HOrd (laps : List Lap) : Prop :=
  List.Pairwise (fun a b => a.driver = b.driver → a.lapNumber < b.lapNumber) laps

/-- Symmetric comparison relation between two annotated laps of one driver:
stint order agrees with lap-number order, and equal stint indices force equal
compounds. -/
def Rsym (a b : Lap × Nat) : Prop :=
  (a.2 < b.2 → a.1.lapNumber < b.1.lapNumber) ∧
  (b.2 < a.2 → b.1.lapNumber < a.1.lapNumber) ∧
  (a.2 = b.2 → a.1.compound = b.1.compound)

/-- Input for C1: a timed lap with a pit-out timestamp but no pit-in. -/
def exC1 : List Lap := [⟨"A", 2, some "Soft", some 90, none, some 100⟩]

/-- Input for C2: an untimed lap followed by a timed lap of the same stint. -/
def exC2 : List Lap :=
  [⟨"A", 1, some "Soft", none, none, none⟩,
   ⟨"A", 2, some "Soft", some 90, none, none⟩]

/-- The spec's worked example (section 8), for the C4 witness. -/
def exC4 : List Lap :=
  [⟨"A", 1, some "Soft", some 901, none, none⟩,
   ⟨"A", 2, some "Soft", some 898, none, none⟩,
   ⟨"A", 3, some "Medium", some 895, none, none⟩,
   ⟨"A", 4, some "Medium", some 899, none, none⟩]

/-- The spec's worked example again, for the C5 witness. -/
def exC5 : List Lap :=
  [⟨"A", 1, some "Soft", some 901, none, none⟩,
   ⟨"A", 2, some "Soft", some 898, none, none⟩,
   ⟨"A", 3, some "Medium", some 895, none, none⟩,
   ⟨"A", 4, some "Medium", some 899, none, none⟩]

/-- Input for C6: a stint ending at lap 2 whose pit event has duration 0. -/
def exC6 : List Lap :=
  [⟨"A", 1, some "Soft", some 91, none, none⟩,
   ⟨"A", 2, some "Soft", some 90, some 100, some 100⟩]

/-- Input for C7: both pit timestamps present, pit-in after pit-out. -/
def exC7 : Lap := ⟨"A", 2, some "Soft", some 90, some 10, some 5⟩

/-- Input for the C7 witness: pit-in 22 time units before pit-out. -/
def exC7w : Lap := ⟨"A", 2, some "Soft", some 90, some 1000, some 1022⟩

/-- Input for the C8 witness: driver A has no valid-timed lap. -/
def exC8 : List Lap :=
  [⟨"A", 1, some "Soft", none, none, some 5⟩,
   ⟨"B", 1, some "Soft", some 90, none, none⟩]

/-- The spec's worked example with lap times, for the C9 range filter. -/
def exC9 : List Lap :=
  [⟨"A", 1, some "Soft", some 901, none, none⟩,
   ⟨"A", 2, some "Soft", some 898, none, none⟩,
   ⟨"A", 3, some "Medium", some 895, none, none⟩,
   ⟨"A", 4, some "Medium", some 899, none, none⟩]

/-- Input for the C10 witness: a pit event with duration exactly 0. -/
def exC10 : List Lap := [⟨"A", 2, some "Soft", some 90, some 100, some 100⟩]

/-- The spec's worked example once more, for the C3 witness. -/
def exC3 : List Lap :=
  [⟨"A", 1, some "Soft", some 901, none, none⟩,
   ⟨"A", 2, some "Soft", some 898, none, none⟩,
   ⟨"A", 3, some "Medium", some 895, none, none⟩,
   ⟨"A", 4, some "Medium", some 899, none, none⟩]

/-- Lap 3 of the worked example, its fastest lap (89.5 s). -/
def exC3fl : Lap := ⟨"A", 3, some "Medium", some 895, none, none⟩

/-! ### Helper lemmas on the fold-based minima and maxima -/

theorem foldMin_le_init {α : Type} [LinearOrder α] (a : α) (l : List α) :
    foldMin a l ≤ a := by
  induction l generalizing a with
  | nil => exact le_rfl
  | cons x xs ih => exact le_trans (ih (min a x)) (min_le_left a x)

theorem foldMin_le_mem {α : Type} [LinearOrder α] {x : α} (a : α)
    (l : List α) (hx : x ∈ l) : foldMin a l ≤ x := by
  induction l generalizing a with
  | nil => cases hx
  | cons y ys ih =>
    rcases List.mem_cons.mp hx with h | h
    · subst h
      exact le_trans (foldMin_le_init (min a x) ys) (min_le_right a x)
    · exact ih (min a y) h

theorem foldMin_eq_init_or_mem {α : Type} [LinearOrder α] (a : α)
    (l : List α) : foldMin a l = a ∨ foldMin a l ∈ l := by
  induction l generalizing a with
  | nil => exact Or.inl rfl
  | cons y ys ih =>
    rcases ih (min a y) with h | h
    · rcases min_choice a y with hc | hc
      · exact Or.inl (h.trans hc)
      · exact Or.inr (List.mem_cons.mpr (Or.inl (h.trans hc)))
    · exact Or.inr (List.mem_cons.mpr (Or.inr h))

theorem foldMax_init_le {α : Type} [LinearOrder α] (a : α) (l : List α) :
    a ≤ foldMax a l := by
  induction l generalizing a with
  | nil => exact le_rfl
  | cons x xs ih => exact le_trans (le_max_left a x) (ih (max a x))

theorem foldMax_mem_le {α : Type} [LinearOrder α] {x : α} (a : α)
    (l : List α) (hx : x ∈ l) : x ≤ foldMax a l := by
  induction l generalizing a with
  | nil => cases hx
  | cons y ys ih =>
    rcases List.mem_cons.mp hx with h | h
    · subst h
      exact le_trans (le_max_right a x) (foldMax_init_le (max a x) ys)
    · exact ih (max a y) h

theorem foldMax_eq_init_or_mem {α : Type} [LinearOrder α] (a : α)
    (l : List α) : foldMax a l = a ∨ foldMax a l ∈ l := by
  induction l generalizing a with
  | nil => exact Or.inl rfl
  | cons y ys ih =>
    rcases ih (max a y) with h | h
    · rcases max_choice a y with hc | hc
      · exact Or.inl (h.trans hc)
      · exact Or.inr (List.mem_cons.mpr (Or.inl (h.trans hc)))
    · exact Or.inr (List.mem_cons.mpr (Or.inr h))

theorem natMinL_le {l : List Nat} {x : Nat} (hx : x ∈ l) : natMinL l ≤ x := by
  cases l with
  | nil => cases hx
  | cons y ys =>
    rcases List.mem_cons.mp hx with h | h
    · subst h; exact foldMin_le_init x ys
    · exact foldMin_le_mem y ys h

theorem natMinL_mem {l : List Nat} (h : l ≠ []) : natMinL l ∈ l := by
  cases l with
  | nil => exact absurd rfl h
  | cons y ys =>
    rcases foldMin_eq_init_or_mem y ys with h1 | h1
    · exact List.mem_cons.mpr (Or.inl h1)
    · exact List.mem_cons.mpr (Or.inr h1)

theorem natMaxL_ge {l : List Nat} {x : Nat} (hx : x ∈ l) : x ≤ natMaxL l := by
  cases l with
  | nil => cases hx
  | cons y ys =>
    rcases List.mem_cons.mp hx with h | h
    · subst h; exact foldMax_init_le x ys
    · exact foldMax_mem_le y ys h

theorem natMaxL_mem {l : List Nat} (h : l ≠ []) : natMaxL l ∈ l := by
  cases l with
  | nil => exact absurd rfl h
  | cons y ys =>
    rcases foldMax_eq_init_or_mem y ys with h1 | h1
    · exact List.mem_cons.mpr (Or.inl h1)
    · exact List.mem_cons.mpr (Or.inr h1)

theorem natMinL_le_natMaxL {l : List Nat} (h : l ≠ []) :
    natMinL l ≤ natMaxL l :=
  natMinL_le (natMaxL_mem h)

/-! ### Helper lemmas on the stint-assignment scan -/

theorem eq_of_pdNe_false {a b : Option String} (h : pdNe a b = false) :
    a = b := by
  cases a with
  | none => simp [pdNe] at h
  | some x =>
    cases b with
    | none => simp [pdNe] at h
    | some y =>
      simp only [pdNe, Option.isNone_some, Bool.false_or,
        decide_eq_false_iff_not, not_not] at h
      exact h

theorem stGet_put_self (st : StState) (d : String) (v : Option String × Nat) :
    stGet (stPut st d v) d = some v := by
  simp [stGet, stPut]

theorem stGet_put_ne (st : StState) {k d : String} (h : k ≠ d)
    (v : Option String × Nat) : stGet (stPut st k v) d = stGet st d := by
  simp [stGet, stPut, h]

theorem assignStints_map_fst (st : StState) (laps : List Lap) :
    (assignStints st laps).map (fun p => p.1) = laps := by
  induction laps generalizing st with
  | nil => rfl
  | cons l rest ih =>
    simp only [assignStints, List.map_cons, ih]

theorem assign_proj (laps : List Lap) (st : StState) (d : String) :
    (assignStints st laps).filter (fun p => decide (p.1.driver = d)) =
      scanStints ((stGet st d).map Prod.fst)
        (((stGet st d).map Prod.snd).getD 0)
        (laps.filter (fun l => decide (l.driver = d))) := by
  induction laps generalizing st with
  | nil => rfl
  | cons l rest ih =>
    by_cases hd : l.driver = d
    · subst hd
      simp [assignStints, List.filter_cons, scanStints, ih, stGet_put_self,
        stintIdx]
    · have hstate : stGet (stPut st l.driver
          (l.compound, stintIdx (stGet st l.driver) l.compound)) d =
          stGet st d := stGet_put_ne st hd _
      simp [assignStints, List.filter_cons, hd, ih, hstate]

theorem scanStints_ge_and_eq (l : List Lap) :
    ∀ (prev : Option (Option String)) (c : Nat) (y : Lap × Nat),
      y ∈ scanStints prev c l →
      c ≤ y.2 ∧ (y.2 = c → ∃ pc, prev = some pc ∧ y.1.compound = pc) := by
  induction l with
  | nil => intro prev c y hy; cases hy
  | cons x rest ih =>
    intro prev c y hy
    rcases List.mem_cons.mp hy with h | h
    · subst h
      by_cases hf : changeFlag x.compound prev = true
      · constructor
        · simp [scanIdx, hf]
        · intro he
          simp [scanIdx, hf] at he
      · have hf' : changeFlag x.compound prev = false :=
          Bool.eq_false_iff.mpr hf
        rcases prev with _ | pc
        · simp [changeFlag] at hf'
        · have hcomp : x.compound = pc :=
            eq_of_pdNe_false (by simpa [changeFlag] using hf')

          refine ⟨by simp [scanIdx, hf'], fun _ => ⟨pc, rfl, hcomp⟩⟩
    · have hrec := ih (some x.compound) (scanIdx prev c x.compound) y h
      by_cases hf : changeFlag x.compound prev = true
      · have hc1 : c + 1 ≤ y.2 := by
          have : scanIdx prev c x.compound = c + 1 := by simp [scanIdx, hf]
          rw [← this]; exact hrec.1
        exact ⟨Nat.le_of_succ_le hc1, fun he => absurd (he ▸ hc1) (by omega)⟩
      · have hf' : changeFlag x.compound prev = false :=
          Bool.eq_false_iff.mpr hf
        have hidx : scanIdx prev c x.compound = c := by simp [scanIdx, hf']
        rcases prev with _ | pc
        · simp [changeFlag] at hf'
        · have hcomp : x.compound = pc :=
            eq_of_pdNe_false (by simpa [changeFlag] using hf')
          refine ⟨by rw [← hidx]; exact hrec.1, fun he => ?_⟩
          rcases hrec.2 (by rw [hidx]; exact he) with ⟨pc', hpc', hcomp'⟩
          refine ⟨pc, rfl, ?_⟩
          have hx : pc' = x.compound := (Option.some.injEq _ _ ▸ hpc').symm
          exact (hx ▸ hcomp').trans hcomp

theorem scanStints_pairwise (l : List Lap) (prev : Option (Option String))
    (c : Nat) :
    List.Pairwise
      (fun a b : Lap × Nat => a.2 ≤ b.2 ∧ (a.2 = b.2 → a.1.compound = b.1.compound))
      (scanStints prev c l) := by
  induction l generalizing prev c with
  | nil => exact List.Pairwise.nil
  | cons x rest ih =>
    refine List.pairwise_cons.mpr ⟨?_, ih (some x.compound) _⟩
    intro y hy
    have h := scanStints_ge_and_eq rest (some x.compound)
      (scanIdx prev c x.compound) y hy
    refine ⟨h.1, fun he => ?_⟩
    rcases h.2 he.symm with ⟨pc, hpc, hcomp⟩
    have hx : pc = x.compound := (Option.some.injEq _ _ ▸ hpc).symm
    exact (hx ▸ hcomp).symm

theorem driverSeq_eq_scan (laps : List Lap) (d : String) :
    driverSeq laps d =
      scanStints none 0 (laps.filter (fun l => decide (l.driver = d))) := by
  have h := assign_proj laps [] d
  simpa [driverSeq, stGet] using h

theorem driverSeq_pairwise (laps : List Lap) (d : String) :
    List.Pairwise
      (fun a b : Lap × Nat => a.2 ≤ b.2 ∧ (a.2 = b.2 → a.1.compound = b.1.compound))
      (driverSeq laps d) := by
  rw [driverSeq_eq_scan]
  exact scanStints_pairwise _ _ _

theorem driverSeq_pairwise_lap (laps : List Lap) (d : String)
    (hord : HOrd laps) :
    List.Pairwise (fun a b : Lap × Nat => a.1.lapNumber < b.1.lapNumber)
      (driverSeq laps d) := by
  have hmap := assignStints_map_fst [] laps
  rw [← hmap] at hord
  have h0 : List.Pairwise
      (fun a b : Lap × Nat => a.1.driver = b.1.driver → a.1.lapNumber < b.1.lapNumber)
      (assignStints [] laps) := List.pairwise_map.mp hord
  have h1 := h0.filter (fun p => decide (p.1.driver = d))
  refine h1.imp_of_mem ?_
  intro a b ha hb hab
  have hda : a.1.driver = d :=
    of_decide_eq_true (List.mem_filter.mp ha).2
  have hdb : b.1.driver = d :=
    of_decide_eq_true (List.mem_filter.mp hb).2
  exact hab (hda.trans hdb.symm)

theorem driverSeq_rel (laps : List Lap) (d : String) (hord : HOrd laps) :
    ∀ a ∈ driverSeq laps d, ∀ b ∈ driverSeq laps d, Rsym a b := by
  have hp := (driverSeq_pairwise laps d).and (driverSeq_pairwise_lap laps d hord)
  have hsym : Symmetric Rsym := by
    intro a b h
    exact ⟨h.2.1, h.1, fun e => (h.2.2 e.symm).symm⟩
  have hRs : List.Pairwise Rsym (driverSeq laps d) := by
    refine hp.imp ?_
    rintro a b ⟨⟨hle, hcomp⟩, hlt⟩
    exact ⟨fun _ => hlt, fun hba => absurd hba (not_lt.mpr hle), hcomp⟩
  intro a ha b hb
  by_cases hab : a = b
  · subst hab
    exact ⟨fun h => absurd h (lt_irrefl _), fun h => absurd h (lt_irrefl _),
      fun _ => rfl⟩
  · exact hRs.forall hsym ha hb hab

/-! ### Membership helpers for the derived tables -/

theorem mem_assign_fst {p : Lap × Nat} {st : StState} {laps : List Lap}
    (h : p ∈ assignStints st laps) : p.1 ∈ laps := by
  have hm := assignStints_map_fst st laps
  rw [← hm]
  exact List.mem_map_of_mem _ h

theorem mem_timedOf {p : Lap × Nat} {laps : List Lap} (h : p ∈ timedOf laps) :
    p ∈ assignStints [] laps ∧ p.1.lapTime.isSome := by
  exact ⟨(List.mem_filter.mp h).1, (List.mem_filter.mp h).2⟩

theorem mem_timedLaps {l : Lap} {laps : List Lap} (h : l ∈ timedLaps laps) :
    l ∈ laps ∧ l.lapTime.isSome := by
  rcases List.mem_map.mp h with ⟨p, hp, hpl⟩
  rcases mem_timedOf hp with ⟨hp1, hp2⟩
  exact ⟨hpl ▸ mem_assign_fst hp1, hpl ▸ hp2⟩

theorem timed_mem_driverSeq {p : Lap × Nat} {laps : List Lap} {d : String}
    (h : p ∈ timedOf laps) (hd : p.1.driver = d) : p ∈ driverSeq laps d :=
  List.mem_filter.mpr ⟨(mem_timedOf h).1, decide_eq_true hd⟩

theorem mem_stintGroup {tl : List (Lap × Nat)} {d : String} {s : Nat}
    {c : String} {p : Lap × Nat} :
    p ∈ stintGroup tl d s c ↔
      p ∈ tl ∧ p.1.driver = d ∧ p.2 = s ∧ p.1.compound = some c := by
  simp [stintGroup, List.mem_filter]

theorem stintKey_eq_some {p : Lap × Nat} {k : String × Nat × String} :
    stintKey p = some k ↔
      p.1.driver = k.1 ∧ p.2 = k.2.1 ∧ p.1.compound = some k.2.2 := by
  rcases k with ⟨d, s, c⟩
  simp only [stintKey, Option.map_eq_some']
  constructor
  · rintro ⟨c', hc', hk⟩
    injection hk with h1 h2
    injection h2 with h2a h2b
    exact ⟨h1, h2a, by rw [hc', h2b]⟩
  · rintro ⟨h1, h2, h3⟩
    exact ⟨c, h3, by rw [h1, h2]⟩

theorem mem_stintsFrom {tl : List (Lap × Nat)} {st : StintRec} :
    st ∈ stintsFrom tl ↔
      ∃ k, k ∈ tl.filterMap stintKey ∧ st = buildStint tl k := by
  simp only [stintsFrom, List.mem_map, List.mem_dedup]
  constructor
  · rintro ⟨k, hk, hb⟩; exact ⟨k, hk, hb.symm⟩
  · rintro ⟨k, hk, hb⟩; exact ⟨k, hk, hb.symm⟩

theorem stintGroup_of_key {tl : List (Lap × Nat)} {p : Lap × Nat}
    {k : String × Nat × String} (hp : p ∈ tl) (hk : stintKey p = some k) :
    p ∈ stintGroup tl k.1 k.2.1 k.2.2 := by
  rcases stintKey_eq_some.mp hk with ⟨h1, h2, h3⟩
  exact mem_stintGroup.mpr ⟨hp, h1, h2, h3⟩

theorem buildStint_bounds {tl : List (Lap × Nat)} {k : String × Nat × String}
    {p : Lap × Nat} (hp : p ∈ stintGroup tl k.1 k.2.1 k.2.2) :
    (buildStint tl k).startLap ≤ p.1.lapNumber ∧
      p.1.lapNumber ≤ (buildStint tl k).endLap := by
  have hmem : p.1.lapNumber ∈
      (stintGroup tl k.1 k.2.1 k.2.2).map (fun p => p.1.lapNumber) :=
    List.mem_map_of_mem _ hp
  exact ⟨natMinL_le hmem, natMaxL_ge hmem⟩

theorem buildStint_start_mem {tl : List (Lap × Nat)}
    {k : String × Nat × String} (h : stintGroup tl k.1 k.2.1 k.2.2 ≠ []) :
    ∃ p ∈ stintGroup tl k.1 k.2.1 k.2.2,
      p.1.lapNumber = (buildStint tl k).startLap := by
  have hne : (stintGroup tl k.1 k.2.1 k.2.2).map (fun p => p.1.lapNumber) ≠ [] := by
    intro hc
    exact h (List.map_eq_nil_iff.mp hc)
  rcases List.mem_map.mp (natMinL_mem hne) with ⟨p, hp, hpl⟩
  exact ⟨p, hp, hpl⟩

theorem buildStint_end_mem {tl : List (Lap × Nat)}
    {k : String × Nat × String} (h : stintGroup tl k.1 k.2.1 k.2.2 ≠ []) :
    ∃ p ∈ stintGroup tl k.1 k.2.1 k.2.2,
      p.1.lapNumber = (buildStint tl k).endLap := by
  have hne : (stintGroup tl k.1 k.2.1 k.2.2).map (fun p => p.1.lapNumber) ≠ [] := by
    intro hc
    exact h (List.map_eq_nil_iff.mp hc)
  rcases List.mem_map.mp (natMaxL_mem hne) with ⟨p, hp, hpl⟩
  exact ⟨p, hp, hpl⟩

theorem stintsFrom_self_key {tl : List (Lap × Nat)} {st : StintRec}
    (h : st ∈ stintsFrom tl) :
    st = buildStint tl (st.driver, st.stint, st.compound) ∧
      (st.driver, st.stint, st.compound) ∈ tl.filterMap stintKey := by
  rcases mem_stintsFrom.mp h with ⟨k, hk, hb⟩
  have hksame : (st.driver, st.stint, st.compound) = k := by
    subst hb; rfl
  rw [hksame]
  exact ⟨hb, hk⟩

theorem minTime_le {tl : List Lap} {l : Lap} {t : ℚ} (hl : l ∈ tl)
    (ht : l.lapTime = some t) : ∃ m, minTime tl = some m ∧ m ≤ t := by
  have hts : t ∈ tl.filterMap (fun x => x.lapTime) :=
    List.mem_filterMap.mpr ⟨l, hl, ht⟩
  unfold minTime
  split
  · next heq => rw [heq] at hts; cases hts
  · next t0 rest heq =>
    rw [heq] at hts
    refine ⟨foldMin t0 rest, rfl, ?_⟩
    rcases List.mem_cons.mp hts with h | h
    · subst h; exact foldMin_le_init t rest
    · exact foldMin_le_mem t0 rest h

theorem minTime_attained {tl : List Lap} {m : ℚ} (h : minTime tl = some m) :
    ∃ l ∈ tl, l.lapTime = some m := by
  unfold minTime at h
  split at h
  · cases h
  · next t0 rest heq =>
    injection h with h
    have hm : m ∈ tl.filterMap (fun x => x.lapTime) := by
      rw [heq]
      rcases foldMin_eq_init_or_mem t0 rest with h1 | h1
      · exact List.mem_cons.mpr (Or.inl ((h ▸ h1).symm).symm)
      · exact List.mem_cons.mpr (Or.inr (h ▸ h1))
    rcases List.mem_filterMap.mp hm with ⟨l, hl, hlt⟩
    exact ⟨l, hl, hlt⟩

theorem pdEqQ_true {a b : Option ℚ} :
    pdEqQ a b = true ↔ ∃ x, a = some x ∧ b = some x := by
  cases a with
  | none => simp [pdEqQ]
  | some x =>
    cases b with
    | none => simp [pdEqQ]
    | some y =>
      simp only [pdEqQ, decide_eq_true_eq]
      constructor
      · intro h; exact ⟨x, rfl, by rw [h]⟩
      · rintro ⟨z, hz, hy⟩
        injection hz with hz
        injection hy with hy
        exact hz.trans hy.symm

theorem mem_timedLaps_isSome {l : Lap} {laps : List Lap}
    (h : l ∈ timedLaps laps) : l.lapTime.isSome :=
  (mem_timedLaps h).2

/-! ### Claim theorems -/

/-- C1 (code bug): the spec says that a pit event with an absent pit-in
timestamp is reported with an absent (None) duration.  The code stores the
NaN duration in the lookup, NaN is truthy in Python, and `f"{nan:.2f}s"` is
the string `"nans"`: at the failing input below, `get_pit_info_from_lookup`
returns `some "nans"`, not `none`. -/
theorem claim_C1_nan_pit_info :
    exC1 = [⟨"A", 2, some "Soft", some 90, none, some 100⟩] ∧
    pit_lookup exC1 "A" 2 = some none ∧
    get_pit_info_from_lookup (pit_lookup exC1) "A" 2 = some "nans" :=
  ⟨rfl, rfl, rfl⟩

/-- C2 (counterexample): in the `pit_strategy.py` derivation (no `dropna`)
the stint computed for the input below has `StartLap = 1`, the lap number of
a lap without a recorded lap time, while the minimum lap number among
valid-timed laps of the group is 2 — so StartLap is not the minimum over
valid-timed laps only, refuting the claim as stated. -/
theorem claim_C2_counterexample :
    stintsPS exC2 = [⟨"A", 1, "Soft", 1, 2⟩] ∧
    (exC2.filter (fun l => l.lapTime.isSome)).map (fun l => l.lapNumber) = [2] ∧
    stintsOf exC2 = [⟨"A", 1, "Soft", 2, 2⟩] := by
  exact ⟨by decide, by decide, by decide⟩

/-- C6 (counterexample): a pit event exists at key (A, 2) with duration
exactly 0, and a stint of driver A ends at lap 2, yet the reported pit stop
is `none` — the report is not "exactly the pit event, if any, at
(driver, EndLap)". -/
theorem claim_C6_counterexample :
    pit_lookup exC6 "A" 2 = some (some 0) ∧
    stintsOf exC6 = [⟨"A", 1, "Soft", 1, 2⟩] ∧
    stintPitStop exC6 ⟨"A", 1, "Soft", 1, 2⟩ = none := by
  have h1 : pit_lookup exC6 "A" 2 = some (some ((100 : ℚ) - 100)) := rfl
  have h0 : ((100 : ℚ) - 100) = 0 := by norm_num
  rw [h0] at h1
  refine ⟨h1, by decide, ?_⟩
  show get_pit_info_from_lookup (pit_lookup exC6) "A" 2 = none
  simp [get_pit_info_from_lookup, h1, truthyDur]

/-- C7 (counterexample): both pit timestamps present but pit-in after
pit-out; the derived duration is −5 < 0, refuting "duration ≥ 0 whenever
both timestamps are present". -/
theorem claim_C7_counterexample :
    exC7.pitInTime = some 10 ∧ exC7.pitOutTime = some 5 ∧
    pitDuration exC7 = some (-5) ∧ ¬(0 : ℚ) ≤ (-5 : ℚ) := by
  have h1 : pitDuration exC7 = some ((5 : ℚ) - 10) := rfl
  have h0 : ((5 : ℚ) - 10) = -5 := by norm_num
  rw [h0] at h1
  exact ⟨rfl, rfl, h1, by norm_num⟩

/-- C7 (amended): when both pit timestamps are present the derived duration
is exactly pit-out − pit-in, and it is non-negative precisely when pit-out is
not earlier than pit-in; the code does not enforce non-negativity. -/
theorem claim_C7_amended (l : Lap) (o i : ℚ) (ho : l.pitOutTime = some o)
    (hi : l.pitInTime = some i) :
    pitDuration l = some (o - i) ∧ (0 ≤ o - i ↔ i ≤ o) := by
  constructor
  · simp [pitDuration, ho, hi]
  · constructor <;> intro h <;> linarith

/-- Witness for C7: a pit stop with pit-in 1000 and pit-out 1022. -/
theorem claim_C7_witness :
    pitDuration exC7w = some ((1022 : ℚ) - 1000) ∧
    ((0 : ℚ) ≤ 1022 - 1000 ↔ (1000 : ℚ) ≤ 1022) :=
  ⟨(claim_C7_amended exC7w 1022 1000 rfl rfl).1,
   (claim_C7_amended exC7w 1022 1000 rfl rfl).2⟩

/-- C10: a pit duration stored as exactly 0 is falsy in Python, so the
pit-info lookup returns `none` for it, exactly as it does when the key is
absent from the mapping. -/
theorem claim_C10_zero_duration (lookup : String → Nat → Option (Option ℚ))
    (abbr : String) (lap : Nat) (h : lookup abbr lap = some (some 0)) :
    get_pit_info_from_lookup lookup abbr lap = none ∧
    ∀ lk2 : String → Nat → Option (Option ℚ), lk2 abbr lap = none →
      get_pit_info_from_lookup lk2 abbr lap = none := by
  constructor
  · simp [get_pit_info_from_lookup, h, truthyDur]
  · intro lk2 h2
    simp [get_pit_info_from_lookup, h2]

/-- Witness for C10: the pipeline's own lookup holding a 0-duration pit
event at (A, 2). -/
theorem claim_C10_witness :
    pit_lookup exC10 "A" 2 = some (some 0) ∧
    get_pit_info_from_lookup (pit_lookup exC10) "A" 2 = none := by
  have h1 : pit_lookup exC10 "A" 2 = some (some ((100 : ℚ) - 100)) := rfl
  have h0 : ((100 : ℚ) - 100) = 0 := by norm_num
  rw [h0] at h1
  exact ⟨h1, (claim_C10_zero_duration (pit_lookup exC10) "A" 2 h1).1⟩

/-- C6 (amended): the pit stop reported for a stint is computed from the
(driver, lap)→duration mapping consulted at (driver, EndLap): when no pit
event has that key nothing is reported; when the mapping holds a duration
there, the value reported is its formatted string if the duration is truthy
(non-zero or NaN) and nothing otherwise, and that duration really is the
duration of a pit event at that key. -/
theorem claim_C6_amended (laps : List Lap) (st : StintRec) :
    ((∀ l ∈ pitRows laps, ¬(l.driver = st.driver ∧ l.lapNumber = st.endLap)) →
      stintPitStop laps st = none) ∧
    (∀ dq, pit_lookup laps st.driver st.endLap = some dq →
      stintPitStop laps st = if truthyDur dq then some (fmtDur dq) else none) ∧
    (∀ dq, pit_lookup laps st.driver st.endLap = some dq →
      ∃ l ∈ pitRows laps, l.driver = st.driver ∧ l.lapNumber = st.endLap ∧
        pitDuration l = dq) := by
  refine ⟨?_, ?_, ?_⟩
  · intro h
    have hnone : pit_lookup laps st.driver st.endLap = none := by
      unfold pit_lookup
      rw [Option.map_eq_none']
      rw [List.find?_eq_none]
      intro x hx
      simp only [decide_eq_true_eq]
      intro hpx
      exact h x (List.mem_reverse.mp hx) hpx
    simp [stintPitStop, get_pit_info_from_lookup, hnone]
  · intro dq hdq
    simp [stintPitStop, get_pit_info_from_lookup, hdq]
  · intro dq hdq
    unfold pit_lookup at hdq
    rcases Option.map_eq_some'.mp hdq with ⟨l, hl, hdur⟩
    have hl1 : l ∈ pitRows laps :=
      List.mem_reverse.mp (List.mem_of_find?_eq_some hl)
    have hl2 := List.find?_some hl
    simp only [decide_eq_true_eq] at hl2
    exact ⟨l, hl1, hl2.1, hl2.2, hdur⟩

/-- Witness for C6: the zero-duration pit event at (A, 2) yields no reported
pit stop for the stint ending at lap 2. -/
theorem claim_C6_witness :
    stintPitStop exC6 ⟨"A", 1, "Soft", 1, 2⟩ =
      (if truthyDur (some 0) then some (fmtDur (some 0)) else none) := by
  have h1 : pit_lookup exC6 "A" 2 = some (some ((100 : ℚ) - 100)) := rfl
  have h0 : ((100 : ℚ) - 100) = 0 := by norm_num
  rw [h0] at h1
  exact (claim_C6_amended exC6 ⟨"A", 1, "Soft", 1, 2⟩).2.1 (some 0) h1

/-- C3: the set of returned fastest laps is exactly the set of valid-timed
laps whose lap time equals the global minimum over the valid-timed laps;
ties are all kept. -/
theorem claim_C3_fastest_set (laps : List Lap) (l : Lap) :
    l ∈ fastestOf laps ↔
      l ∈ timedLaps laps ∧
      ∃ t, l.lapTime = some t ∧
        ∀ l' ∈ timedLaps laps, ∀ t', l'.lapTime = some t' → t ≤ t' := by
  constructor
  · intro h
    have hf := List.mem_filter.mp h
    refine ⟨hf.1, ?_⟩
    rcases pdEqQ_true.mp hf.2 with ⟨t, hlt, hmin⟩
    refine ⟨t, hlt, ?_⟩
    intro l' hl' t' ht'
    rcases minTime_le hl' ht' with ⟨m, hm, hmt⟩
    rw [hmin] at hm
    injection hm with hm
    rw [hm]
    exact hmt
  · rintro ⟨hl, t, ht, hbound⟩
    refine List.mem_filter.mpr ⟨hl, ?_⟩
    rcases minTime_le hl ht with ⟨m, hm, hmt⟩
    rcases minTime_attained hm with ⟨l0, hl0, hl0t⟩
    have htm : t = m := le_antisymm (hbound l0 hl0 m hl0t) hmt
    exact pdEqQ_true.mpr ⟨t, ht, by rw [hm, htm]⟩

/-- Witness for C3: lap 3 of the worked example is a fastest lap, hence
valid-timed and minimal. -/
theorem claim_C3_witness :
    exC3fl ∈ timedLaps exC3 ∧
    ∃ t, exC3fl.lapTime = some t ∧
      ∀ l' ∈ timedLaps exC3, ∀ t', l'.lapTime = some t' → t ≤ t' :=
  (claim_C3_fastest_set exC3 exC3fl).mp (by decide)

/-- C4: under the spec's input ordering, a driver's annotated laps are in
strictly increasing lap-number order, the stint indices along them are
non-decreasing, and whenever the driver has at least one lap the first
stint index is 1 (the missing-predecessor comparison counts as a change). -/
theorem claim_C4_stint_monotone (laps : List Lap) (d : String)
    (hord : HOrd laps) :
    List.Pairwise (fun a b : Lap × Nat => a.1.lapNumber < b.1.lapNumber)
      (driverSeq laps d) ∧
    List.Chain' (· ≤ ·) ((driverSeq laps d).map (fun p => p.2)) ∧
    (∀ l ∈ laps, l.driver = d →
      ((driverSeq laps d).map (fun p => p.2)).head? = some 1) := by
  refine ⟨driverSeq_pairwise_lap laps d hord, ?_, ?_⟩
  · have hp := driverSeq_pairwise laps d
    have hp2 : List.Pairwise (· ≤ ·) ((driverSeq laps d).map (fun p => p.2)) := by
      rw [List.pairwise_map]
      exact hp.imp (fun h => h.1)
    exact hp2.chain'
  · intro l hl hld
    have hmem : l ∈ laps.filter (fun l => decide (l.driver = d)) :=
      List.mem_filter.mpr ⟨hl, decide_eq_true hld⟩
    rw [driverSeq_eq_scan]
    cases hc : laps.filter (fun l => decide (l.driver = d)) with
    | nil => rw [hc] at hmem; cases hmem
    | cons x rest => simp [scanStints, scanIdx, changeFlag]

/-- Witness for C4: the worked example for driver A. -/
theorem claim_C4_witness :
    HOrd exC4 ∧
    (List.Pairwise (fun a b : Lap × Nat => a.1.lapNumber < b.1.lapNumber)
        (driverSeq exC4 "A") ∧
      List.Chain' (· ≤ ·) ((driverSeq exC4 "A").map (fun p => p.2)) ∧
      (∀ l ∈ exC4, l.driver = "A" →
        ((driverSeq exC4 "A").map (fun p => p.2)).head? = some 1)) :=
  ⟨by decide, claim_C4_stint_monotone exC4 "A" (by decide)⟩

/-- C2 (amended): in the `app.py` derivation every row surviving the
`dropna` is a lap of the input with a recorded lap time, and a stint's
StartLap/EndLap are attained by — and bound — exactly the valid-timed laps
of its (driver, stint, compound) group; the `pit_strategy.py` derivation
(see the counterexample) does not discard untimed laps first. -/
theorem claim_C2_amended (laps : List Lap) (st : StintRec)
    (h : st ∈ stintsOf laps) :
    (∀ p ∈ timedOf laps, p.1 ∈ laps ∧ p.1.lapTime.isSome) ∧
    (∃ p ∈ timedOf laps, p.1.driver = st.driver ∧ p.2 = st.stint ∧
      p.1.compound = some st.compound ∧ p.1.lapNumber = st.startLap) ∧
    (∃ p ∈ timedOf laps, p.1.driver = st.driver ∧ p.2 = st.stint ∧
      p.1.compound = some st.compound ∧ p.1.lapNumber = st.endLap) ∧
    (∀ p ∈ timedOf laps, p.1.driver = st.driver → p.2 = st.stint →
      p.1.compound = some st.compound →
      st.startLap ≤ p.1.lapNumber ∧ p.1.lapNumber ≤ st.endLap) := by
  rcases stintsFrom_self_key h with ⟨hb, hk⟩
  rcases List.mem_filterMap.mp hk with ⟨q, hq, hqk⟩
  have hgne : stintGroup (timedOf laps) st.driver st.stint st.compound ≠ [] :=
    List.ne_nil_of_mem (stintGroup_of_key hq hqk)
  refine ⟨?_, ?_, ?_, ?_⟩
  · intro p hp
    exact ⟨mem_assign_fst (mem_timedOf hp).1, (mem_timedOf hp).2⟩
  · rcases @buildStint_start_mem (timedOf laps)
      (st.driver, st.stint, st.compound) hgne with ⟨p, hpg, hpl⟩
    rcases mem_stintGroup.mp hpg with ⟨hpt, h1, h2, h3⟩
    exact ⟨p, hpt, h1, h2, h3, by rw [hpl, ← hb]⟩
  · rcases @buildStint_end_mem (timedOf laps)
      (st.driver, st.stint, st.compound) hgne with ⟨p, hpg, hpl⟩
    rcases mem_stintGroup.mp hpg with ⟨hpt, h1, h2, h3⟩
    exact ⟨p, hpt, h1, h2, h3, by rw [hpl, ← hb]⟩
  · intro p hp h1 h2 h3
    have hpg : p ∈ stintGroup (timedOf laps) st.driver st.stint st.compound :=
      mem_stintGroup.mpr ⟨hp, h1, h2, h3⟩
    have hbd := @buildStint_bounds (timedOf laps)
      (st.driver, st.stint, st.compound) _ hpg
    rw [← hb] at hbd
    exact hbd

/-- Witness for C2: the stint derived from the counterexample input by the
`app.py` pipeline starts at the timed lap 2. -/
theorem claim_C2_witness :
    (⟨"A", 1, "Soft", 2, 2⟩ : StintRec) ∈ stintsOf exC2 ∧
    (∃ p ∈ timedOf exC2, p.1.driver = "A" ∧ p.2 = 1 ∧
      p.1.compound = some "Soft" ∧ p.1.lapNumber = 2) :=
  ⟨by decide, (claim_C2_amended exC2 ⟨"A", 1, "Soft", 2, 2⟩ (by decide)).2.1⟩

/-- C8: empty lap input yields empty stint, pit and fastest-lap outputs, and
a driver all of whose laps lack a recorded lap time is absent from all three
outputs. -/
theorem claim_C8_empty_absent :
    (stintsOf [] = [] ∧ pitRows [] = [] ∧ fastestOf [] = [] ∧
      ∀ a n, pit_lookup [] a n = none) ∧
    ∀ (laps : List Lap) (d : String),
      (∀ l ∈ laps, l.driver = d → l.lapTime = none) →
      (∀ st ∈ stintsOf laps, st.driver ≠ d) ∧
      (∀ l ∈ pitRows laps, l.driver ≠ d) ∧
      (∀ l ∈ fastestOf laps, l.driver ≠ d) := by
  constructor
  · exact ⟨rfl, rfl, rfl, fun a n => rfl⟩
  · intro laps d h
    have habs : ∀ l ∈ timedLaps laps, l.driver ≠ d := by
      intro l hl hld
      rcases mem_timedLaps hl with ⟨hmem, hsome⟩
      rw [h l hmem hld] at hsome
      simp at hsome
    refine ⟨?_, ?_, ?_⟩
    · intro st hst hstd
      rcases stintsFrom_self_key hst with ⟨_, hk⟩
      rcases List.mem_filterMap.mp hk with ⟨p, hp, hkey⟩
      rcases stintKey_eq_some.mp hkey with ⟨h1, _, _⟩
      have hpml : p.1 ∈ timedLaps laps := List.mem_map_of_mem _ hp
      exact habs p.1 hpml (h1.trans hstd)
    · intro l hl
      exact habs l (List.mem_of_mem_filter hl)
    · intro l hl
      exact habs l (List.mem_of_mem_filter hl)

/-- Witness for C8: driver A of `exC8` has no valid-timed lap and is absent
from stints, pit rows and fastest laps. -/
theorem claim_C8_witness :
    (∀ st ∈ stintsOf exC8, st.driver ≠ "A") ∧
    (∀ l ∈ pitRows exC8, l.driver ≠ "A") ∧
    (∀ l ∈ fastestOf exC8, l.driver ≠ "A") :=
  claim_C8_empty_absent.2 exC8 "A" (by decide)

/-- C9 (spec-modelled filter): every stint derived from the range-filtered
input lies inside [lo, hi]; on the worked example, filtering to laps 3–4
removes the (Soft, 1–2) stint and leaves only (Medium, 3–4). -/
theorem claim_C9_range_filter :
    (∀ (lo hi : Nat) (laps : List Lap) (st : StintRec),
      st ∈ stintsOf (filterLapRange lo hi laps) →
      lo ≤ st.startLap ∧ st.startLap ≤ st.endLap ∧ st.endLap ≤ hi) ∧
    stintsOf (filterLapRange 3 4 exC9) = [⟨"A", 1, "Medium", 3, 4⟩] ∧
    stintsOf exC9 = [⟨"A", 1, "Soft", 1, 2⟩, ⟨"A", 2, "Medium", 3, 4⟩] := by
  refine ⟨?_, by decide, by decide⟩
  intro lo hi laps st h
  rcases stintsFrom_self_key h with ⟨hb, hk⟩
  rcases List.mem_filterMap.mp hk with ⟨q, hq, hqk⟩
  have hgne := List.ne_nil_of_mem (stintGroup_of_key hq hqk)
  rcases @buildStint_start_mem (timedOf (filterLapRange lo hi laps))
    (st.driver, st.stint, st.compound) hgne with ⟨u, hug, hul⟩
  rcases @buildStint_end_mem (timedOf (filterLapRange lo hi laps))
    (st.driver, st.stint, st.compound) hgne with ⟨v, hvg, hvl⟩
  have huf : u.1 ∈ filterLapRange lo hi laps :=
    mem_assign_fst (mem_timedOf (mem_stintGroup.mp hug).1).1
  have hvf : v.1 ∈ filterLapRange lo hi laps :=
    mem_assign_fst (mem_timedOf (mem_stintGroup.mp hvg).1).1
  have hur := (List.mem_filter.mp huf).2
  have hvr := (List.mem_filter.mp hvf).2
  simp only [decide_eq_true_eq] at hur hvr
  have hvb := @buildStint_bounds (timedOf (filterLapRange lo hi laps))
    (st.driver, st.stint, st.compound) _ hvg
  refine ⟨?_, ?_, ?_⟩
  · rw [hb, ← hul]
    exact hur.1
  · rw [hb]
    exact hvl ▸ hvb.1
  · rw [hb, ← hvl]
    exact hvr.2

/-- C5: under the spec's input ordering every derived stint has
StartLap ≤ EndLap, and every valid-timed lap with a known compound lies in
the [StartLap, EndLap] interval of exactly one of its driver's stints. -/
theorem claim_C5_cover (laps : List Lap) (hord : HOrd laps) :
    (∀ st ∈ stintsOf laps, st.startLap ≤ st.endLap) ∧
    (∀ p ∈ timedOf laps, ∀ c, p.1.compound = some c →
      ∃! st, st ∈ stintsOf laps ∧ st.driver = p.1.driver ∧
        st.startLap ≤ p.1.lapNumber ∧ p.1.lapNumber ≤ st.endLap) := by
  constructor
  · intro st hst
    rcases stintsFrom_self_key hst with ⟨hb, hk⟩
    rcases List.mem_filterMap.mp hk with ⟨q, hq, hqk⟩
    have hgne := List.ne_nil_of_mem (stintGroup_of_key hq hqk)
    rcases @buildStint_end_mem (timedOf laps)
      (st.driver, st.stint, st.compound) hgne with ⟨v, hvg, hvl⟩
    have hvb := @buildStint_bounds (timedOf laps)
      (st.driver, st.stint, st.compound) _ hvg
    rw [hb]
    exact hvl ▸ hvb.1
  · intro p hp c hc
    have hkey : stintKey p = some (p.1.driver, p.2, c) :=
      stintKey_eq_some.mpr ⟨rfl, rfl, hc⟩
    have hkmem : (p.1.driver, p.2, c) ∈ (timedOf laps).filterMap stintKey :=
      List.mem_filterMap.mpr ⟨p, hp, hkey⟩
    have hstmem : buildStint (timedOf laps) (p.1.driver, p.2, c) ∈
        stintsOf laps := mem_stintsFrom.mpr ⟨_, hkmem, rfl⟩
    have hpg : p ∈ stintGroup (timedOf laps) p.1.driver p.2 c :=
      mem_stintGroup.mpr ⟨hp, rfl, rfl, hc⟩
    have hbd := @buildStint_bounds (timedOf laps)
      (p.1.driver, p.2, c) _ hpg
    refine ⟨buildStint (timedOf laps) (p.1.driver, p.2, c),
      ⟨hstmem, rfl, hbd.1, hbd.2⟩, ?_⟩
    rintro st' ⟨hmem', hdrv', hlo', hhi'⟩
    rcases stintsFrom_self_key hmem' with ⟨hb', hk'⟩
    rcases List.mem_filterMap.mp hk' with ⟨q, hq, hqk⟩
    have hqg : q ∈ stintGroup (timedOf laps) st'.driver st'.stint st'.compound :=
      stintGroup_of_key hq hqk
    have hgne' := List.ne_nil_of_mem hqg
    have hrel := driverSeq_rel laps p.1.driver hord
    have hpd : p ∈ driverSeq laps p.1.driver := timed_mem_driverSeq hp rfl
    have hgds : ∀ w,
        w ∈ stintGroup (timedOf laps) st'.driver st'.stint st'.compound →
        w ∈ driverSeq laps p.1.driver ∧ w.2 = st'.stint := by
      intro w hw
      rcases mem_stintGroup.mp hw with ⟨hwt, hw1, hw2, _⟩
      exact ⟨timed_mem_driverSeq hwt (hw1.trans hdrv'), hw2⟩
    rcases Nat.lt_trichotomy st'.stint p.2 with hlt | heq | hgt
    · exfalso
      rcases @buildStint_end_mem (timedOf laps)
        (st'.driver, st'.stint, st'.compound) hgne' with ⟨v, hvg, hvl⟩
      rcases hgds v hvg with ⟨hvd, hvs⟩
      have hr := hrel v hvd p hpd
      have hvp : v.1.lapNumber < p.1.lapNumber := hr.1 (by rw [hvs]; exact hlt)
      have hve : st'.endLap = v.1.lapNumber := by rw [hvl, ← hb']
      omega
    · have hcomp : c = st'.compound := by
        rcases mem_stintGroup.mp hqg with ⟨hqt, hq1, hq2, hq3⟩
        have hqd : q ∈ driverSeq laps p.1.driver :=
          timed_mem_driverSeq hqt (hq1.trans hdrv')
        have hr := hrel p hpd q hqd
        have hpq : p.1.compound = q.1.compound := hr.2.2 (by rw [hq2, heq])
        rw [hc, hq3] at hpq
        exact Option.some.inj hpq
      rw [hb']
      congr 1
      rw [hdrv', heq, ← hcomp]
    · exfalso
      rcases @buildStint_start_mem (timedOf laps)
        (st'.driver, st'.stint, st'.compound) hgne' with ⟨u, hug, hul⟩
      rcases hgds u hug with ⟨hud, hus⟩
      have hr := hrel p hpd u hud
      have hpu : p.1.lapNumber < u.1.lapNumber := hr.1 (by rw [hus]; exact hgt)
      have hue : st'.startLap = u.1.lapNumber := by rw [hul, ← hb']
      omega

/-- Witness for C5: the worked example satisfies the ordering contract and
its stints cover the timed laps without overlap. -/
theorem claim_C5_witness :
    HOrd exC5 ∧
    ((∀ st ∈ stintsOf exC5, st.startLap ≤ st.endLap) ∧
     (∀ p ∈ timedOf exC5, ∀ c, p.1.compound = some c →
       ∃! st, st ∈ stintsOf exC5 ∧ st.driver = p.1.driver ∧
         st.startLap ≤ p.1.lapNumber ∧ p.1.lapNumber ≤ st.endLap)) :=
  ⟨by decide, claim_C5_cover exC5 (by decide)⟩

/-- Witness for C9: the surviving stint of the filtered worked example lies
inside the range [3, 4]. -/
theorem claim_C9_witness :
    3 ≤ (⟨"A", 1, "Medium", 3, 4⟩ : StintRec).startLap ∧
    (⟨"A", 1, "Medium", 3, 4⟩ : StintRec).startLap ≤
      (⟨"A", 1, "Medium", 3, 4⟩ : StintRec).endLap ∧
    (⟨"A", 1, "Medium", 3, 4⟩ : StintRec).endLap ≤ 4 :=
  claim_C9_range_filter.1 3 4 exC9 ⟨"A", 1, "Medium", 3, 4⟩ (by decide)

end BoxBoxBox
